import Mathlib

/-!
Shallow embedding of the core of `src/voice_task_tracker.py`:
the `Task` data model, the `TaskManager` store (add / update / delete /
get / save / load over a JSON backing file), the
`VoiceRecognizer.interpret_command` transcript interpreter, and the
command-execution branches of `TaskTrackerApp.process_voice_command`.
Python strings are modelled as `String` / `List Char`, Python ints as
`Int` (arbitrary precision, as in Python), JSON values by an explicit
inductive type, and on-disk persistence by an explicit file slot carried
in the manager state together with a count of write operations.
-/

namespace VoiceTracker

/-- JSON values as read and written by the persistence layer.
JSON numbers are modelled as integers: the program itself only ever
writes integer ids and the claims never involve fractional numbers. -/
inductive Json where
  | null
  | bool (b : Bool)
  | num (n : Int)
  | str (s : String)
  | arr (elems : List Json)
  | obj (fields : List (String × Json))

/-- `Task` from the source: id, description, completed. -/
structure Task where
  id : Int
  description : String
  completed : Bool
deriving Repr, DecidableEq

/-- Python exceptions that can escape the modelled fragment. -/
inductive PyErr where
  | keyError
  | typeError
deriving Repr, DecidableEq

/-- `Task.to_dict`: serialize a task as a JSON object. -/
def Task.to_dict (t : Task) : Json :=
  .obj [("id", .num t.id), ("description", .str t.description), ("completed", .bool t.completed)]

/-- Python dict lookup on a decoded JSON object; `json.load` keeps the
last binding when a key is repeated, so we look the key up from the end. -/
def py_lookup (fields : List (String × Json)) (k : String) : Option Json :=
  (fields.reverse.find? (fun p => p.1 == k)).map (fun p => p.2)

/-- `Task.from_dict`: `task_dict['id']`, `task_dict['description']`,
`task_dict['completed']`.  A missing key raises `KeyError`; indexing a
non-dict raises `TypeError`.  Field values of unexpected types are
modelled as `TypeError`, whereas Python would construct an ill-typed
task object; no theorem below depends on that case. -/
def Task.from_dict : Json → Except PyErr Task
  | .obj fields =>
    match py_lookup fields "id", py_lookup fields "description", py_lookup fields "completed" with
    | none, _, _ => .error .keyError
    | some _, none, _ => .error .keyError
    | some _, some _, none => .error .keyError
    | some i, some d, some c =>
      match i, d, c with
      | .num i, .str d, .bool c => .ok ⟨i, d, c⟩
      | _, _, _ => .error .typeError
  | _ => .error .typeError

/-- The backing file: absent, present but not valid JSON, or a decoded
JSON value. -/
inductive FileState where
  | absent
  | malformed
  | content (j : Json)

/-- `TaskManager` state.  `file` models the single backing file;
`write_count` counts calls to `save_tasks` (persistence writes). -/
structure TaskManager where
  tasks : List Task
  next_id : Int
  file : FileState
  write_count : Nat

/-- The state of a fresh manager before `load_tasks`, with no backing
file present: `self.tasks = []`, `self.next_id = 1`. -/
def fresh_manager : TaskManager :=
  { tasks := [], next_id := 1, file := .absent, write_count := 0 }

/-- `TaskManager.save_tasks`: dump the task list (and nothing else) to
the backing file. -/
def save_tasks (m : TaskManager) : TaskManager :=
  { m with file := .content (.arr (m.tasks.map Task.to_dict)),
           write_count := m.write_count + 1 }

/-- `TaskManager.get_task`: first task with the given id, else `None`. -/
def get_task (m : TaskManager) (task_id : Int) : Option Task :=
  m.tasks.find? (fun t => t.id == task_id)

/-- `TaskManager.add_task`: construct `Task(self.next_id, description)`,
append, bump the counter, persist, return the new task. -/
def add_task (m : TaskManager) (description : String) : TaskManager × Task :=
  let task : Task := ⟨m.next_id, description, false⟩
  (save_tasks { m with tasks := m.tasks ++ [task], next_id := m.next_id + 1 }, task)

/-- Replace the first element satisfying `p` by `f` applied to it;
models in-place mutation of the object returned by `get_task`. -/
def update_at_found (p : Task → Bool) (f : Task → Task) : List Task → List Task
  | [] => []
  | t :: ts => if p t then f t :: ts else t :: update_at_found p f ts

/-- `TaskManager.update_task`: update only the supplied fields of the
task returned by `get_task`; persist only on success. -/
def update_task (m : TaskManager) (task_id : Int)
    (description : Option String) (completed : Option Bool) :
    TaskManager × Option Task :=
  match get_task m task_id with
  | none => (m, none)
  | some t =>
    let t' : Task := ⟨t.id, description.getD t.description, completed.getD t.completed⟩
    (save_tasks { m with tasks := update_at_found (fun x => x.id == task_id) (fun _ => t') m.tasks },
     some t')

/-- `TaskManager.delete_task`: `self.tasks.remove(task)` removes the
first element equal to the object found by `get_task`, i.e. the first
task with the given id; persist only on success. -/
def delete_task (m : TaskManager) (task_id : Int) : TaskManager × Bool :=
  match get_task m task_id with
  | none => (m, false)
  | some _ =>
    (save_tasks { m with tasks := m.tasks.eraseP (fun t => t.id == task_id) }, true)

/-- Python iteration over a decoded JSON value, as in
`for task_dict in tasks_data`: a list yields its elements, a string its
characters (as one-character strings), a dict its keys; numbers,
booleans and `null` are not iterable and raise `TypeError`. -/
def iter_elems : Json → Except PyErr (List Json)
  | .arr xs => .ok xs
  | .str s => .ok (s.toList.map (fun c => .str (String.mk [c])))
  | .obj fields => .ok (fields.map (fun p => .str p.1))
  | _ => .error .typeError

/-- The list comprehension `[Task.from_dict(d) for d in tasks_data]`:
left to right, stopping at the first exception. -/
def tasks_of_dicts : List Json → Except PyErr (List Task)
  | [] => .ok []
  | j :: rest =>
    match Task.from_dict j with
    | .error e => .error e
    | .ok t =>
      match tasks_of_dicts rest with
      | .error e => .error e
      | .ok ts => .ok (t :: ts)

/-- `max(task.id for task in tasks)` for a non-empty list (callers guard
emptiness, mirroring `if self.tasks:`). -/
def max_id : List Task → Int
  | [] => 0
  | t :: ts => ts.foldl (fun a x => max a x.id) t.id

/-- `TaskManager.load_tasks`.  Absent file: state kept as initialized.
`json.JSONDecodeError` and `KeyError` are caught and reset the store to
empty with `next_id = 1`; any `TypeError` (content of the wrong shape)
escapes as a fatal error. -/
def load_tasks (m : TaskManager) : Except PyErr TaskManager :=
  match m.file with
  | .absent => .ok m
  | .malformed => .ok { m with tasks := [], next_id := 1 }
  | .content j =>
    match iter_elems j with
    | .error e => .error e
    | .ok entries =>
      match tasks_of_dicts entries with
      | .error .keyError => .ok { m with tasks := [], next_id := 1 }
      | .error .typeError => .error .typeError
      | .ok ts =>
        .ok { m with tasks := ts,
                     next_id := if ts.isEmpty then 1 else max_id ts + 1 }

/-! ## The command interpreter (`VoiceRecognizer.interpret_command`)

Python string operations are embedded as structurally recursive
functions on `List Char`. -/

/-- ASCII case of `str.lower` applied to one character (the transcripts
appearing in the claims are all ASCII). -/
def lower_char (c : Char) : Char :=
  if 65 ≤ c.toNat ∧ c.toNat ≤ 90 then Char.ofNat (c.toNat + 32) else c

/-- `text.lower()`. -/
def py_lower (l : List Char) : List Char :=
  l.map lower_char

/-- Does `sub` start the list `l`? -/
def starts_with : List Char → List Char → Bool
  | [], _ => true
  | _ :: _, [] => false
  | p :: ps, c :: cs => p == c && starts_with ps cs

/-- Python substring containment `sub in s`. -/
def list_contains (sub : List Char) : List Char → Bool
  | [] => sub.isEmpty
  | c :: rest => starts_with sub (c :: rest) || list_contains sub rest

/-- The pieces of `s` around the first occurrence of `sep`
(for non-empty `sep`), or `none` when `sep` does not occur;
`s.split(sep, 1)` is `[before, after]` or `[s]` accordingly. -/
def split_first (sep : List Char) : List Char → Option (List Char × List Char)
  | [] => none
  | c :: rest =>
    if starts_with sep (c :: rest) then some ([], (c :: rest).drop sep.length)
    else
      match split_first sep rest with
      | some (b, a) => some (c :: b, a)
      | none => none

/-- The description extracted by the add branch:
`parts = text.split(sep, 1); parts[1] if len(parts) > 1 else ""`. -/
def add_desc (l : List Char) (sep : List Char) : String :=
  match split_first sep l with
  | some (_, after) => String.mk after
  | none => ""

/-- `text.split()`: split on whitespace runs, no empty tokens.  `cur`
accumulates the current token in reverse. -/
def py_words_aux (cur : List Char) : List Char → List (List Char)
  | [] => if cur.isEmpty then [] else [cur.reverse]
  | c :: rest =>
    if c.isWhitespace then
      if cur.isEmpty then py_words_aux [] rest
      else cur.reverse :: py_words_aux [] rest
    else py_words_aux (c :: cur) rest

/-- `text.split()`. -/
def py_words (l : List Char) : List (List Char) :=
  py_words_aux [] l

/-- `" ".join(words)`. -/
def join_words : List (List Char) → List Char
  | [] => []
  | w :: ws =>
    match ws with
    | [] => w
    | _ :: _ => w ++ ' ' :: join_words ws

/-- Value of a run of decimal digits (`none` at the first non-digit). -/
def dec_digits_aux (acc : Nat) : List Char → Option Nat
  | [] => some acc
  | c :: rest =>
    if 48 ≤ c.toNat ∧ c.toNat ≤ 57 then dec_digits_aux (acc * 10 + (c.toNat - 48)) rest
    else none

/-- Python `int(word)` on a whitespace-free token: optional sign then a
non-empty digit run.  (Python additionally accepts underscores between
digits and non-ASCII digits; no token in the claims uses either.) -/
def parse_py_int (w : List Char) : Option Int :=
  match w with
  | [] => none
  | '+' :: rest =>
    match rest with
    | [] => none
    | _ => (dec_digits_aux 0 rest).map Int.ofNat
  | '-' :: rest =>
    match rest with
    | [] => none
    | _ => (dec_digits_aux 0 rest).map (fun n => -(Int.ofNat n))
  | l => (dec_digits_aux 0 l).map Int.ofNat

/-- The token scan shared by the delete and complete branches:
`for i, word in enumerate(words): if word in triggers and i+1 < len(words): ...`.
At the first trigger token that has a successor, parse the successor as
an int (`inl`) or join the remaining tokens from the successor on as a
description (`inr`); if no such pair exists the loop falls through. -/
def scan_target (triggers : List (List Char)) : List (List Char) → Option (Int ⊕ List Char)
  | [] => none
  | w :: rest =>
    match rest with
    | [] => none
    | nxt :: _ =>
      if triggers.contains w then
        match parse_py_int nxt with
        | some n => some (Sum.inl n)
        | none => some (Sum.inr (join_words rest))
      else scan_target triggers rest

/-- The structured command produced by `interpret_command`, one
constructor per `(command, param)` shape the Python function returns:
`("add", desc)`, `("delete", int-or-None)`, `("delete_by_desc", s)`,
`("complete", int-or-None)`, `("complete_by_desc", s)`,
`("list", None)`, `(None, None)`. -/
inductive Command where
  | add (description : String)
  | deleteById (id : Option Int)
  | deleteByDesc (fragment : String)
  | completeById (id : Option Int)
  | completeByDesc (fragment : String)
  | list
  | unrecognized
deriving Repr, DecidableEq

/-- `VoiceRecognizer.interpret_command`. -/
def interpret_command (text : String) : Command :=
  if text = "" then .unrecognized
  else
    let t := py_lower text.toList
    if list_contains "add".toList t || list_contains "create".toList t then
      .add (add_desc t (if list_contains "add".toList t then "add ".toList else "create ".toList))
    else if list_contains "delete".toList t || list_contains "remove".toList t then
      match scan_target ["delete".toList, "remove".toList] (py_words t) with
      | some (Sum.inl n) => .deleteById (some n)
      | some (Sum.inr d) => .deleteByDesc (String.mk d)
      | none => .deleteById none
    else if list_contains "complete".toList t || list_contains "mark done".toList t then
      match scan_target ["complete".toList, "done".toList] (py_words t) with
      | some (Sum.inl n) => .completeById (some n)
      | some (Sum.inr d) => .completeByDesc (String.mk d)
      | none => .completeById none
    else if list_contains "list".toList t || list_contains "show".toList t then
      .list
    else .unrecognized

/-! ## The command executor (`TaskTrackerApp.process_voice_command`)

The executor branches after `interpret_command` has run, returning the
updated store together with the spoken feedback string. -/

/-- The list of tasks whose description contains the fragment,
case-insensitively: `[t for t in tasks if param.lower() in t.description.lower()]`. -/
def desc_matches (m : TaskManager) (fragment : String) : List Task :=
  m.tasks.filter
    (fun t => list_contains (py_lower fragment.toList) (py_lower t.description.toList))

/-- The spoken enumeration accumulated by the list branch:
`feedback += f"Task {id}, {description}, {status}. "`. -/
def list_feedback (ts : List Task) : String :=
  ts.foldl
    (fun acc t =>
      acc ++ "Task " ++ toString t.id ++ ", " ++ t.description ++ ", "
          ++ (if t.completed then "completed" else "pending") ++ ". ")
    ""

/-- The dispatch of `process_voice_command` on an interpreted command,
returning the store after the branch and the feedback it speaks.
`("delete", None)` and `("complete", None)` match no `elif` arm (the
guards require `param is not None`) and fall into the final
"Command not recognized" branch; the "Please specify a task number"
arms are unreachable from `interpret_command` and have no counterpart
here. -/
def process_command (m : TaskManager) : Command → TaskManager × String
  | .add p =>
    if p ≠ "" then ((add_task m p).1, "Added task: " ++ p)
    else (m, "Please specify a task to add")
  | .deleteById (some n) =>
    match get_task m n with
    | some _ => ((delete_task m n).1, "Deleted task " ++ toString n)
    | none => (m, "Task " ++ toString n ++ " not found")
  | .deleteByDesc fragment =>
    match desc_matches m fragment with
    | [t] => ((delete_task m t.id).1, "Deleted task: " ++ t.description)
    | [] => (m, "No matching task found.")
    | _ => (m, "Multiple matching tasks found. Please be more specific.")
  | .completeById (some n) =>
    match get_task m n with
    | some _ => ((update_task m n none (some true)).1, "Marked task " ++ toString n ++ " as complete")
    | none => (m, "Task " ++ toString n ++ " not found")
  | .completeByDesc fragment =>
    match desc_matches m fragment with
    | [t] => ((update_task m t.id none (some true)).1, "Marked task as complete: " ++ t.description)
    | [] => (m, "No matching task found.")
    | _ => (m, "Multiple matching tasks found. Please be more specific.")
  | .list =>
    if m.tasks.isEmpty then (m, "Your task list is empty.")
    else (m, "Here are your tasks: " ++ list_feedback m.tasks)
  | .deleteById none => (m, "Command not recognized")
  | .completeById none => (m, "Command not recognized")
  | .unrecognized => (m, "Command not recognized")

/-! ## Operation sequences and the store invariant -/

/-- One mutating store operation. -/
inductive Op where
  | add (description : String)
  | update (task_id : Int) (description : Option String) (completed : Option Bool)
  | delete (task_id : Int)

/-- Apply one operation to the store. -/
def apply_op (m : TaskManager) : Op → TaskManager
  | .add d => (add_task m d).1
  | .update tid d c => (update_task m tid d c).1
  | .delete tid => (delete_task m tid).1

/-- Apply a sequence of operations, left to right. -/
def apply_ops (m : TaskManager) : List Op → TaskManager
  | [] => m
  | op :: ops => apply_ops (apply_op m op) ops

/-- The store invariant of the spec: ids pairwise distinct, and the
next-id counter strictly above every id present. -/
def StoreInv (m : TaskManager) : Prop :=
  (m.tasks.map Task.id).Nodup ∧ ∀ i ∈ m.tasks.map Task.id, i < m.next_id

instance (m : TaskManager) : Decidable (StoreInv m) := by
  unfold StoreInv; infer_instance

/-- The two-task store of the spec's by-description example. -/
def sample_store : TaskManager :=
  { tasks := [⟨1, "buy milk", false⟩, ⟨2, "buy bread", false⟩],
    next_id := 3, file := .absent, write_count := 0 }

/-! ## Theorems -/

/-- C5: `interpret_command` on the five example transcripts of the spec:
"add buy milk" is an add of "buy milk", "delete 3" a delete of id 3,
"complete laundry" a complete-by-description of "laundry", "show tasks"
the list command, and the empty transcript is unrecognized. -/
theorem interpret_examples :
    interpret_command "add buy milk" = .add "buy milk" ∧
    interpret_command "delete 3" = .deleteById (some 3) ∧
    interpret_command "complete laundry" = .completeByDesc "laundry" ∧
    interpret_command "show tasks" = .list ∧
    interpret_command "" = .unrecognized := by
  refine ⟨?_, ?_, ?_, ?_, ?_⟩ <;> decide

/-- C2 (counterexample): after adding task "a" (id 1) and deleting it,
the store is empty, yet the next add assigns id 2, not 1 — the id
assigned by `add_task` is not one-greater-than-the-maximum-present-id
(and not 1 on an empty store). -/
theorem add_after_delete_id_exceeds_max :
    ((delete_task (add_task fresh_manager "a").1 1).1).tasks = [] ∧
    (add_task (delete_task (add_task fresh_manager "a").1 1).1 "b").2 = ⟨2, "b", false⟩ ∧
    (2 : Int) ≠ 1 := by
  refine ⟨?_, ?_, ?_⟩ <;> decide

/-- C2 (amended): `add_task` accepts any description (it is total,
including the empty string), assigns the new task the id stored in the
next-id counter (which equals max-present-id + 1 only while the counter
is in sync, e.g. right after a load), appends the task, increments the
counter, persists the new list to the backing file, and returns the new
task. -/
theorem add_task_spec (m : TaskManager) (d : String) :
    (add_task m d).2 = ⟨m.next_id, d, false⟩ ∧
    (add_task m d).1.tasks = m.tasks ++ [⟨m.next_id, d, false⟩] ∧
    (add_task m d).1.next_id = m.next_id + 1 ∧
    (add_task m d).1.file =
      .content (.arr ((m.tasks ++ [(⟨m.next_id, d, false⟩ : Task)]).map Task.to_dict)) ∧
    (add_task m d).1.write_count = m.write_count + 1 :=
  ⟨rfl, rfl, rfl, rfl, rfl⟩

/-- C8: for an id absent from the store, `update_task` returns the store
unchanged with `None`, `delete_task` returns it unchanged with `False`,
and executing complete-by-id or delete-by-id produces "Task ... not
found" feedback with no mutation; since the returned state is exactly
the input state, the backing file and write count are untouched — no
persistence write occurs. -/
theorem absent_id_no_mutation (m : TaskManager) (tid : Int)
    (h : ∀ t ∈ m.tasks, t.id ≠ tid) :
    (∀ d c, update_task m tid d c = (m, none)) ∧
    delete_task m tid = (m, false) ∧
    process_command m (.completeById (some tid)) = (m, "Task " ++ toString tid ++ " not found") ∧
    process_command m (.deleteById (some tid)) = (m, "Task " ++ toString tid ++ " not found") := by
  have hg : get_task m tid = none := by
    apply List.find?_eq_none.mpr
    intro t ht
    simpa using h t ht
  refine ⟨fun d c => ?_, ?_, ?_, ?_⟩ <;>
    simp [update_task, delete_task, process_command, hg]

/-- C8 (witness): on the one-task store with id 1, id 99 is absent, and
the operations leave the store unchanged with not-found results. -/
theorem absent_id_no_mutation_witness :
    (∀ t ∈ ({ tasks := [⟨1, "buy milk", false⟩], next_id := 2, file := .absent,
              write_count := 0 } : TaskManager).tasks, t.id ≠ 99) ∧
    update_task { tasks := [⟨1, "buy milk", false⟩], next_id := 2, file := .absent,
                  write_count := 0 } 99 none (some true) =
      ({ tasks := [⟨1, "buy milk", false⟩], next_id := 2, file := .absent,
         write_count := 0 }, none) :=
  ⟨by decide,
   (absent_id_no_mutation
     { tasks := [⟨1, "buy milk", false⟩], next_id := 2, file := .absent, write_count := 0 }
     99 (by decide)).1 none (some true)⟩

/-- C9: executing the List command never mutates the store — the
returned state (tasks, next-id, backing file, write count) is exactly
the input state — and on an empty store the feedback is
"Your task list is empty." -/
theorem list_command_pure (m : TaskManager) :
    (process_command m .list).1 = m ∧
    (m.tasks = [] → process_command m .list = (m, "Your task list is empty.")) := by
  constructor
  · by_cases h : m.tasks.isEmpty <;> simp [process_command, h]
  · intro h; simp [process_command, h]

/-- C9 (witness): on the fresh empty store the List command returns the
store unchanged with the empty-list feedback. -/
theorem list_command_pure_witness :
    fresh_manager.tasks = [] ∧
    process_command fresh_manager .list = (fresh_manager, "Your task list is empty.") :=
  ⟨rfl, (list_command_pure fresh_manager).2 rfl⟩

/-- C7: executing a by-description command (delete or complete): with
exactly one matching task the operation is applied to that task; with
zero matches the feedback is "No matching task found." and the store is
returned unchanged; with several matches the feedback is "Multiple
matching tasks found. Please be more specific." and the store is
returned unchanged.  On the spec's two-task store, deleting by "buy" is
ambiguous with no mutation, and deleting by "milk" removes the task
with id 1. -/
theorem by_description_cases :
    (∀ (m : TaskManager) (frag : String), desc_matches m frag = [] →
       process_command m (.deleteByDesc frag) = (m, "No matching task found.") ∧
       process_command m (.completeByDesc frag) = (m, "No matching task found.")) ∧
    (∀ (m : TaskManager) (frag : String) (t1 t2 : Task) (rest : List Task),
       desc_matches m frag = t1 :: t2 :: rest →
       process_command m (.deleteByDesc frag) =
         (m, "Multiple matching tasks found. Please be more specific.") ∧
       process_command m (.completeByDesc frag) =
         (m, "Multiple matching tasks found. Please be more specific.")) ∧
    (∀ (m : TaskManager) (frag : String) (t : Task), desc_matches m frag = [t] →
       process_command m (.deleteByDesc frag) =
         ((delete_task m t.id).1, "Deleted task: " ++ t.description) ∧
       process_command m (.completeByDesc frag) =
         ((update_task m t.id none (some true)).1, "Marked task as complete: " ++ t.description)) ∧
    process_command sample_store (.deleteByDesc "buy") =
      (sample_store, "Multiple matching tasks found. Please be more specific.") ∧
    (process_command sample_store (.deleteByDesc "milk")).1.tasks = [⟨2, "buy bread", false⟩] ∧
    (process_command sample_store (.deleteByDesc "milk")).2 = "Deleted task: buy milk" := by
  refine ⟨fun m frag h => ⟨?_, ?_⟩, fun m frag t1 t2 rest h => ⟨?_, ?_⟩,
          fun m frag t h => ⟨?_, ?_⟩, ?_, ?_, ?_⟩
  · simp [process_command, h]
  · simp [process_command, h]
  · simp [process_command, h]
  · simp [process_command, h]
  · simp [process_command, h]
  · simp [process_command, h]
  · rfl
  · rfl
  · rfl

/-- C7 (witness): on the fresh empty store no task matches "x", and
delete-by-description answers "No matching task found." without
touching the store. -/
theorem by_description_cases_witness :
    desc_matches fresh_manager "x" = [] ∧
    process_command fresh_manager (.deleteByDesc "x") = (fresh_manager, "No matching task found.") :=
  ⟨rfl, (by_description_cases.1 fresh_manager "x" rfl).1⟩

/-- Deserializing a serialized task gives the task back. -/
theorem from_dict_to_dict (t : Task) : Task.from_dict (Task.to_dict t) = .ok t := rfl

/-- Deserializing a serialized task list gives the list back. -/
theorem tasks_of_dicts_map : ∀ ts : List Task, tasks_of_dicts (ts.map Task.to_dict) = .ok ts
  | [] => rfl
  | t :: ts => by simp [tasks_of_dicts, from_dict_to_dict, tasks_of_dicts_map ts]

/-- C4: `save_tasks` followed by `load_tasks` on the same backing file
reproduces the same task list (same ids, descriptions, completed flags,
in the same order), and recomputes the next-id counter as
max-present-id + 1 (1 for the empty list); the file stores only the
task array, so no stored counter is even available to consult. -/
theorem save_load_roundtrip (m : TaskManager) :
    load_tasks (save_tasks m) =
      .ok { save_tasks m with
            next_id := if m.tasks.isEmpty then 1 else max_id m.tasks + 1 } ∧
    (save_tasks m).tasks = m.tasks := by
  refine ⟨?_, rfl⟩
  simp [load_tasks, save_tasks, iter_elems, tasks_of_dicts_map]

/-- C3 (counterexample): a backing file whose content is valid JSON but
of the wrong shape — the one-element array `[42]` — makes `load_tasks`
raise an uncaught `TypeError` (only `json.JSONDecodeError` and
`KeyError` are caught), instead of resetting to an empty store. -/
theorem load_nonobject_entry_fatal :
    load_tasks { fresh_manager with file := .content (.arr [.num 42]) } =
      .error .typeError := rfl

/-- The list comprehension fails with `KeyError` when every entry either
parses or is an object missing a required key, and at least one entry is
of the latter kind. -/
theorem tasks_of_dicts_keyError : ∀ js : List Json,
    (∀ j ∈ js, (∃ t, Task.from_dict j = .ok t) ∨ Task.from_dict j = .error .keyError) →
    (∃ j ∈ js, Task.from_dict j = .error .keyError) →
    tasks_of_dicts js = .error .keyError
  | [], _, hex => by simp at hex
  | j :: rest, hall, hex => by
    rcases hall j (by simp) with ⟨t, ht⟩ | he
    · have hrest : ∃ j' ∈ rest, Task.from_dict j' = .error .keyError := by
        rcases hex with ⟨j', hj', he'⟩
        rcases List.mem_cons.mp hj' with rfl | hmem
        · rw [ht] at he'; exact absurd he' (by simp)
        · exact ⟨j', hmem, he'⟩
      have hr := tasks_of_dicts_keyError rest
        (fun x hx => hall x (List.mem_cons_of_mem _ hx)) hrest
      simp [tasks_of_dicts, ht, hr]
    · simp [tasks_of_dicts, he]

/-- C3 (amended): `load_tasks` keeps the freshly initialized state when
the backing file is absent (for a fresh manager: empty store, next-id
1); it resets to an empty store with next-id 1 when the file content is
not valid JSON, and likewise when the content is an array whose entries
are parseable objects except for at least one object missing a required
field (`KeyError` is caught); but content of the wrong JSON shape (for
example a non-object entry) raises an uncaught `TypeError` instead of
resetting. -/
theorem load_reset_spec :
    (∀ m : TaskManager, m.file = .absent → load_tasks m = .ok m) ∧
    (∀ m : TaskManager, m.file = .malformed →
       load_tasks m = .ok { m with tasks := [], next_id := 1 }) ∧
    (∀ (m : TaskManager) (js : List Json), m.file = .content (.arr js) →
       (∀ j ∈ js, (∃ t, Task.from_dict j = .ok t) ∨ Task.from_dict j = .error .keyError) →
       (∃ j ∈ js, Task.from_dict j = .error .keyError) →
       load_tasks m = .ok { m with tasks := [], next_id := 1 }) := by
  refine ⟨fun m hf => ?_, fun m hf => ?_, fun m js hf hall hex => ?_⟩
  · unfold load_tasks; rw [hf]
  · unfold load_tasks; rw [hf]
  · have h := tasks_of_dicts_keyError js hall hex
    unfold load_tasks; rw [hf]; simp [iter_elems, h]

/-- C3 (witness): a malformed (non-JSON) backing file on a fresh manager
loads as the empty store with next-id 1. -/
theorem load_reset_spec_witness :
    ({ fresh_manager with file := .malformed } : TaskManager).file = .malformed ∧
    load_tasks { fresh_manager with file := .malformed } =
      .ok { ({ fresh_manager with file := .malformed } : TaskManager) with
            tasks := [], next_id := 1 } :=
  ⟨rfl, load_reset_spec.2.1 _ rfl⟩

/-- Replacing the found task by one carrying the same id leaves the
sequence of ids unchanged. -/
theorem update_at_found_map_id (tid : Int) (t' : Task) (h : t'.id = tid) :
    ∀ l : List Task,
      (update_at_found (fun x => x.id == tid) (fun _ => t') l).map Task.id = l.map Task.id
  | [] => rfl
  | x :: xs => by
    by_cases hx : (x.id == tid) = true
    · have hxid : x.id = tid := by simpa using hx
      simp [update_at_found, hx, h, hxid]
    · simp [update_at_found, hx, update_at_found_map_id tid t' h xs]

/-- `update_task` never changes the sequence of ids in the store: ids
are immutable after creation. -/
theorem update_task_map_id (m : TaskManager) (tid : Int)
    (d : Option String) (c : Option Bool) :
    (update_task m tid d c).1.tasks.map Task.id = m.tasks.map Task.id := by
  cases hu : get_task m tid with
  | none => simp [update_task, hu]
  | some t =>
    have hid : t.id = tid := by simpa using List.find?_some hu
    simp only [update_task, hu, save_tasks]
    exact update_at_found_map_id tid _ (by simpa using hid) m.tasks

/-- `add_task` preserves the store invariant. -/
theorem store_inv_add (m : TaskManager) (d : String) (h : StoreInv m) :
    StoreInv (add_task m d).1 := by
  obtain ⟨hnd, hlt⟩ := h
  have ht : (add_task m d).1.tasks = m.tasks ++ [(⟨m.next_id, d, false⟩ : Task)] := rfl
  have hn : (add_task m d).1.next_id = m.next_id + 1 := rfl
  rw [StoreInv, ht, hn, List.map_append]
  constructor
  · refine List.Nodup.append hnd (List.nodup_singleton _) ?_
    intro a ha hb
    have hb' : a = m.next_id := by simpa using hb
    exact absurd (hlt a ha) (by rw [hb']; exact lt_irrefl _)
  · intro i hi
    rcases List.mem_append.mp hi with h1 | h2
    · have := hlt i h1; omega
    · have h2' : i = m.next_id := by simpa using h2
      omega

/-- `update_task` preserves the store invariant. -/
theorem store_inv_update (m : TaskManager) (tid : Int)
    (d : Option String) (c : Option Bool) (h : StoreInv m) :
    StoreInv (update_task m tid d c).1 := by
  obtain ⟨hnd, hlt⟩ := h
  have hmap := update_task_map_id m tid d c
  have hn : (update_task m tid d c).1.next_id = m.next_id := by
    cases hu : get_task m tid with
    | none => simp [update_task, hu]
    | some t => simp [update_task, hu, save_tasks]
  rw [StoreInv, hmap, hn]
  exact ⟨hnd, hlt⟩

/-- `delete_task` preserves the store invariant. -/
theorem store_inv_delete (m : TaskManager) (tid : Int) (h : StoreInv m) :
    StoreInv (delete_task m tid).1 := by
  obtain ⟨hnd, hlt⟩ := h
  cases hu : get_task m tid with
  | none => simpa [delete_task, hu] using ⟨hnd, hlt⟩
  | some t =>
    have ht : (delete_task m tid).1.tasks = m.tasks.eraseP (fun t => t.id == tid) := by
      simp [delete_task, hu, save_tasks]
    have hn : (delete_task m tid).1.next_id = m.next_id := by
      simp [delete_task, hu, save_tasks]
    have hsub : List.Sublist ((m.tasks.eraseP (fun t => t.id == tid)).map Task.id)
        (m.tasks.map Task.id) :=
      (List.eraseP_sublist m.tasks).map Task.id
    rw [StoreInv, ht, hn]
    exact ⟨hnd.sublist hsub, fun i hi => hlt i (hsub.subset hi)⟩

/-- Every single operation preserves the store invariant. -/
theorem store_inv_apply_op (m : TaskManager) (op : Op) (h : StoreInv m) :
    StoreInv (apply_op m op) := by
  cases op with
  | add d => exact store_inv_add m d h
  | update tid d c => exact store_inv_update m tid d c h
  | delete tid => exact store_inv_delete m tid h

/-- C1: starting from any state satisfying the invariant, every sequence
of add/update/delete operations keeps all task ids pairwise distinct
with the next-id counter strictly above every id present; moreover
`update_task` never changes the sequence of ids, so ids are immutable
after creation. -/
theorem store_ids_unique_and_bounded : ∀ (ops : List Op) (m : TaskManager), StoreInv m →
    StoreInv (apply_ops m ops) ∧
    ∀ (tid : Int) (d : Option String) (c : Option Bool),
      (update_task m tid d c).1.tasks.map Task.id = m.tasks.map Task.id
  | [], m, h => ⟨h, fun tid d c => update_task_map_id m tid d c⟩
  | op :: ops, m, h =>
    ⟨(store_ids_unique_and_bounded ops (apply_op m op) (store_inv_apply_op m op h)).1,
     fun tid d c => update_task_map_id m tid d c⟩

/-- C1 (witness): the fresh store satisfies the invariant, and it still
holds after adding two tasks, completing one and deleting one. -/
theorem store_ids_unique_and_bounded_witness :
    StoreInv fresh_manager ∧
    StoreInv (apply_ops fresh_manager
      [.add "buy milk", .add "buy bread", .update 1 none (some true), .delete 2]) :=
  ⟨by decide,
   (store_ids_unique_and_bounded
     [.add "buy milk", .add "buy bread", .update 1 none (some true), .delete 2]
     fresh_manager (by decide)).1⟩

/-- C6 (counterexample): "create addition task" contains the trigger
word "create" (and not the word "add"), so the claim requires the
description "addition task" (everything after "create "); but the code
tests `"add" in text` by substring, finds "add" inside "addition",
splits on the absent separator "add ", and yields `Add("")`. -/
theorem interpret_create_embedded_add :
    interpret_command "create addition task" = .add "" ∧
    Command.add "" ≠ Command.add "addition task" := ⟨by decide, by decide⟩

/-- C6 (amended): the add/create rule is checked first and trigger
containment is by substring on the lower-cased transcript, with "add"
taking precedence: whenever the substring "add" occurs anywhere (even
inside another word) the text is split on the first occurrence of
"add "; only otherwise, when the substring "create" occurs, is it split
on "create "; the description is everything after that separator, and
"" when the separator does not occur.  In particular
"show me tasks to add" is classified as Add (with empty description),
not List. -/
theorem interpret_add_branch_spec :
    (∀ t : String, list_contains "add".toList (py_lower t.toList) = true →
       interpret_command t = .add (add_desc (py_lower t.toList) "add ".toList)) ∧
    (∀ t : String, list_contains "add".toList (py_lower t.toList) = false →
       list_contains "create".toList (py_lower t.toList) = true →
       interpret_command t = .add (add_desc (py_lower t.toList) "create ".toList)) ∧
    interpret_command "show me tasks to add" = .add "" := by
  refine ⟨fun t h => ?_, fun t h1 h2 => ?_, by decide⟩
  · have ht : t ≠ "" := by
      intro e; rw [e] at h; exact absurd h (by decide)
    simp only [interpret_command, if_neg ht]
    rw [h]
    simp
  · have ht : t ≠ "" := by
      intro e; rw [e] at h2; exact absurd h2 (by decide)
    simp only [interpret_command, if_neg ht]
    rw [h1, h2]
    simp

/-- C6 (witness): "add buy milk" contains the substring "add" and is
interpreted as the add of everything after "add ". -/
theorem interpret_add_branch_spec_witness :
    list_contains "add".toList (py_lower "add buy milk".toList) = true ∧
    interpret_command "add buy milk" =
      .add (add_desc (py_lower "add buy milk".toList) "add ".toList) :=
  ⟨by decide, interpret_add_branch_spec.1 "add buy milk" (by decide)⟩

/-! ## Lower-casing of textual parameters (C10) -/

/-- An ASCII upper-case letter. -/
def is_ascii_upper (c : Char) : Prop := 65 ≤ c.toNat ∧ c.toNat ≤ 90

instance (c : Char) : Decidable (is_ascii_upper c) := by
  unfold is_ascii_upper; infer_instance

/-- `Char.ofNat` of a valid scalar value converts back to it. -/
theorem char_toNat_ofNat_valid (n : Nat) (h : n.isValidChar) : (Char.ofNat n).toNat = n := by
  simp [Char.ofNat, h, Char.ofNatAux, Char.toNat, UInt32.toNat]

/-- Lower-casing a character never produces an ASCII upper-case letter. -/
theorem lower_char_not_upper (c : Char) : ¬ is_ascii_upper (lower_char c) := by
  unfold lower_char is_ascii_upper
  by_cases h : 65 ≤ c.toNat ∧ c.toNat ≤ 90
  · rw [if_pos h]
    have hv : (c.toNat + 32).isValidChar := Or.inl (by omega)
    have h2 := char_toNat_ofNat_valid (c.toNat + 32) hv
    omega
  · rw [if_neg h]; exact h

/-- No character of a lower-cased text is ASCII upper case. -/
theorem py_lower_no_upper (l : List Char) : ∀ c ∈ py_lower l, ¬ is_ascii_upper c := by
  intro c hc
  rcases List.mem_map.mp hc with ⟨x, _, rfl⟩
  exact lower_char_not_upper x

/-- The part after the first separator occurrence consists of characters
of the original text. -/
theorem split_first_after_subset (sep : List Char) :
    ∀ l before after : List Char, split_first sep l = some (before, after) →
      ∀ c ∈ after, c ∈ l
  | [], _, _, h => by simp [split_first] at h
  | x :: rest, before, after, h => by
    by_cases hs : starts_with sep (x :: rest) = true
    · simp only [split_first, if_pos hs, Option.some.injEq, Prod.mk.injEq] at h
      intro c hc
      rw [← h.2] at hc
      exact List.drop_subset _ _ hc
    · simp only [split_first, if_neg hs] at h
      cases hsf : split_first sep rest with
      | none => rw [hsf] at h; simp at h
      | some p =>
        obtain ⟨b, a⟩ := p
        rw [hsf] at h
        simp only [Option.some.injEq, Prod.mk.injEq] at h
        intro c hc
        rw [← h.2] at hc
        exact List.mem_cons_of_mem x (split_first_after_subset sep rest b a hsf c hc)

/-- The characters of the description extracted by the add branch come
from the split text. -/
theorem add_desc_chars (l sep : List Char) (c : Char)
    (hc : c ∈ (add_desc l sep).toList) : c ∈ l := by
  unfold add_desc at hc
  cases hs : split_first sep l with
  | none => rw [hs] at hc; simp at hc
  | some p =>
    obtain ⟨b, a⟩ := p
    rw [hs] at hc
    exact split_first_after_subset sep l b a hs c hc

/-- The characters of every token produced by `py_words_aux` come from
the accumulator or the remaining text. -/
theorem py_words_aux_chars : ∀ (l cur w : List Char), w ∈ py_words_aux cur l →
    ∀ c ∈ w, c ∈ cur ∨ c ∈ l
  | [], cur, w, hw => by
    by_cases hc : cur.isEmpty = true
    · simp [py_words_aux, hc] at hw
    · simp only [py_words_aux, if_neg hc, List.mem_singleton] at hw
      intro c hcw
      rw [hw] at hcw
      exact Or.inl (List.mem_reverse.mp hcw)
  | x :: rest, cur, w, hw => by
    by_cases hx : x.isWhitespace = true
    · by_cases hc : cur.isEmpty = true
      · simp only [py_words_aux, if_pos hx, if_pos hc] at hw
        intro c hcw
        rcases py_words_aux_chars rest [] w hw c hcw with h | h
        · simp at h
        · exact Or.inr (List.mem_cons_of_mem x h)
      · simp only [py_words_aux, if_pos hx, if_neg hc, List.mem_cons] at hw
        intro c hcw
        rcases hw with rfl | hw
        · exact Or.inl (List.mem_reverse.mp hcw)
        · rcases py_words_aux_chars rest [] w hw c hcw with h | h
          · simp at h
          · exact Or.inr (List.mem_cons_of_mem x h)
    · simp only [py_words_aux, if_neg hx] at hw
      intro c hcw
      rcases py_words_aux_chars rest (x :: cur) w hw c hcw with h | h
      · rcases List.mem_cons.mp h with rfl | h
        · exact Or.inr (List.mem_cons_self _ _)
        · exact Or.inl h
      · exact Or.inr (List.mem_cons_of_mem x h)

/-- The characters of every whitespace-split token come from the text. -/
theorem py_words_chars (l w : List Char) (hw : w ∈ py_words l) :
    ∀ c ∈ w, c ∈ l := by
  intro c hc
  rcases py_words_aux_chars l [] w hw c hc with h | h
  · simp at h
  · exact h

/-- The characters of a space-join come from the joined tokens or are
spaces. -/
theorem join_words_chars : ∀ (ws : List (List Char)) (c : Char), c ∈ join_words ws →
    c = ' ' ∨ ∃ w ∈ ws, c ∈ w
  | [], c, hc => by simp [join_words] at hc
  | w :: ws, c, hc => by
    cases ws with
    | nil =>
      simp only [join_words] at hc
      exact Or.inr ⟨w, by simp, hc⟩
    | cons w2 ws' =>
      simp only [join_words] at hc
      rcases List.mem_append.mp hc with h | h
      · exact Or.inr ⟨w, by simp, h⟩
      · rcases List.mem_cons.mp h with rfl | h
        · exact Or.inl rfl
        · rcases join_words_chars (w2 :: ws') c h with h1 | ⟨w', hw', hcw⟩
          · exact Or.inl h1
          · exact Or.inr ⟨w', List.mem_cons_of_mem _ hw', hcw⟩

/-- A description produced by the token scan is a space-join of tokens
of the scanned list. -/
theorem scan_target_desc_chars (triggers : List (List Char)) :
    ∀ (ws : List (List Char)) (d : List Char),
      scan_target triggers ws = some (Sum.inr d) →
      ∀ c ∈ d, c = ' ' ∨ ∃ w ∈ ws, c ∈ w
  | [], d, h => by simp [scan_target] at h
  | w :: rest, d, h => by
    cases rest with
    | nil => simp [scan_target] at h
    | cons nxt rest' =>
      simp only [scan_target] at h
      by_cases htr : triggers.contains w = true
      · rw [if_pos htr] at h
        cases hp : parse_py_int nxt with
        | some n => rw [hp] at h; simp at h
        | none =>
          rw [hp] at h
          simp only [Option.some.injEq, Sum.inr.injEq] at h
          intro c hc
          rw [← h] at hc
          rcases join_words_chars (nxt :: rest') c hc with h1 | ⟨w', hw', hcw⟩
          · exact Or.inl h1
          · exact Or.inr ⟨w', List.mem_cons_of_mem _ hw', hcw⟩
      · rw [if_neg htr] at h
        intro c hc
        rcases scan_target_desc_chars triggers (nxt :: rest') d h c hc with h1 | ⟨w', hw', hcw⟩
        · exact Or.inl h1
        · exact Or.inr ⟨w', List.mem_cons_of_mem _ hw', hcw⟩

/-- Every character of an add description produced by the interpreter
comes from the lower-cased transcript. -/
theorem interpret_add_chars (t d : String) (h : interpret_command t = .add d) :
    ∀ c ∈ d.toList, c ∈ py_lower t.toList := by
  by_cases ht : t = ""
  · subst ht; simp [interpret_command] at h
  simp only [interpret_command, if_neg ht] at h
  by_cases h1 : (list_contains "add".toList (py_lower t.toList)
      || list_contains "create".toList (py_lower t.toList)) = true
  · rw [if_pos h1] at h
    have hd : add_desc (py_lower t.toList)
        (if list_contains "add".toList (py_lower t.toList) then "add ".toList
         else "create ".toList) = d := by injection h
    intro c hc
    rw [← hd] at hc
    exact add_desc_chars _ _ c hc
  rw [if_neg h1] at h
  by_cases h2 : (list_contains "delete".toList (py_lower t.toList)
      || list_contains "remove".toList (py_lower t.toList)) = true
  · rw [if_pos h2] at h
    cases hsc : scan_target ["delete".toList, "remove".toList] (py_words (py_lower t.toList)) with
    | none => rw [hsc] at h; exact Command.noConfusion h
    | some v =>
      rw [hsc] at h
      cases v with
      | inl n => exact Command.noConfusion h
      | inr dd => exact Command.noConfusion h
  rw [if_neg h2] at h
  by_cases h3 : (list_contains "complete".toList (py_lower t.toList)
      || list_contains "mark done".toList (py_lower t.toList)) = true
  · rw [if_pos h3] at h
    cases hsc : scan_target ["complete".toList, "done".toList] (py_words (py_lower t.toList)) with
    | none => rw [hsc] at h; exact Command.noConfusion h
    | some v =>
      rw [hsc] at h
      cases v with
      | inl n => exact Command.noConfusion h
      | inr dd => exact Command.noConfusion h
  rw [if_neg h3] at h
  by_cases h4 : (list_contains "list".toList (py_lower t.toList)
      || list_contains "show".toList (py_lower t.toList)) = true
  · rw [if_pos h4] at h; exact Command.noConfusion h
  · rw [if_neg h4] at h; exact Command.noConfusion h

/-- Every character of a by-description fragment produced by the
interpreter comes from the lower-cased transcript or is a space. -/
theorem interpret_frag_chars (t f : String)
    (h : interpret_command t = .deleteByDesc f ∨ interpret_command t = .completeByDesc f) :
    ∀ c ∈ f.toList, c = ' ' ∨ c ∈ py_lower t.toList := by
  by_cases ht : t = ""
  · rcases h with h | h <;> (subst ht; simp [interpret_command] at h)
  have chars_of_scan : ∀ (trig : List (List Char)) (dd : List Char),
      scan_target trig (py_words (py_lower t.toList)) = some (Sum.inr dd) →
      String.mk dd = f →
      ∀ c ∈ f.toList, c = ' ' ∨ c ∈ py_lower t.toList := by
    intro trig dd hsc hf c hc
    rw [← hf] at hc
    rcases scan_target_desc_chars trig _ dd hsc c hc with h1 | ⟨w, hw, hcw⟩
    · exact Or.inl h1
    · exact Or.inr (py_words_chars _ w hw c hcw)
  rcases h with h | h <;>
  · simp only [interpret_command, if_neg ht] at h
    by_cases h1 : (list_contains "add".toList (py_lower t.toList)
        || list_contains "create".toList (py_lower t.toList)) = true
    · rw [if_pos h1] at h; exact Command.noConfusion h
    rw [if_neg h1] at h
    by_cases h2 : (list_contains "delete".toList (py_lower t.toList)
        || list_contains "remove".toList (py_lower t.toList)) = true
    · rw [if_pos h2] at h
      cases hsc : scan_target ["delete".toList, "remove".toList]
          (py_words (py_lower t.toList)) with
      | none => rw [hsc] at h; exact Command.noConfusion h
      | some v =>
        rw [hsc] at h
        cases v with
        | inl n => exact Command.noConfusion h
        | inr dd => exact chars_of_scan _ dd hsc (by injection h)
    rw [if_neg h2] at h
    by_cases h3 : (list_contains "complete".toList (py_lower t.toList)
        || list_contains "mark done".toList (py_lower t.toList)) = true
    · rw [if_pos h3] at h
      cases hsc : scan_target ["complete".toList, "done".toList]
          (py_words (py_lower t.toList)) with
      | none => rw [hsc] at h; exact Command.noConfusion h
      | some v =>
        rw [hsc] at h
        cases v with
        | inl n => exact Command.noConfusion h
        | inr dd => exact chars_of_scan _ dd hsc (by injection h)
    rw [if_neg h3] at h
    by_cases h4 : (list_contains "list".toList (py_lower t.toList)
        || list_contains "show".toList (py_lower t.toList)) = true
    · rw [if_pos h4] at h; exact Command.noConfusion h
    · rw [if_neg h4] at h; exact Command.noConfusion h

/-- C10: every textual parameter produced by the interpreter — an add
description or a by-description fragment — is derived from the
lower-cased transcript (its tokens possibly re-joined with spaces), so
it contains no ASCII upper-case letter; in particular
"Add Buy Milk" is interpreted as the add of "buy milk". -/
theorem interpret_params_lowercase :
    (∀ t d : String, interpret_command t = .add d → ∀ c ∈ d.toList, ¬ is_ascii_upper c) ∧
    (∀ t f : String, interpret_command t = .deleteByDesc f →
       ∀ c ∈ f.toList, ¬ is_ascii_upper c) ∧
    (∀ t f : String, interpret_command t = .completeByDesc f →
       ∀ c ∈ f.toList, ¬ is_ascii_upper c) ∧
    interpret_command "Add Buy Milk" = .add "buy milk" := by
  have hfrag : ∀ (t f : String),
      (interpret_command t = .deleteByDesc f ∨ interpret_command t = .completeByDesc f) →
      ∀ c ∈ f.toList, ¬ is_ascii_upper c := by
    intro t f h c hc
    rcases interpret_frag_chars t f h c hc with rfl | hmem
    · decide
    · exact py_lower_no_upper _ c hmem
  refine ⟨fun t d h c hc => ?_, fun t f h => hfrag t f (Or.inl h),
         fun t f h => hfrag t f (Or.inr h), by decide⟩
  exact py_lower_no_upper _ c (interpret_add_chars t d h c hc)

/-- C10 (witness): the upper-case transcript "ADD WASH" yields the
lower-cased description "wash", which contains no upper-case letter. -/
theorem interpret_params_lowercase_witness :
    interpret_command "ADD WASH" = .add "wash" ∧
    ∀ c ∈ ("wash" : String).toList, ¬ is_ascii_upper c :=
  ⟨by decide, interpret_params_lowercase.1 "ADD WASH" "wash" (by decide)⟩

end VoiceTracker
